import Mathlib

/-!
Verification of the subagent tool of `shelley` (file `claudetool/subagent.go`)
against its natural-language specification.

Strings are modelled as Lean `String`s; the character-level work happens on
`List Char` (`String.data`). Go's `strings.ToLower` is modelled by mapping
`Char.toLower` over the characters: both lower-case the basic latin letters,
which is the only case class the sanitizer's kept alphabet `[a-z0-9-]` and the
specification's test table exercise.

The tool executor `SubagentTool.Run` is modelled as a pure function from the
decoded request (`none` stands for a JSON decode failure) to the produced
tool output together with the list of external calls it made, in order: the
database lookup (`GetOrCreateSubagentConversation`) and the runner dispatch
(`RunSubagent`). The injected `DB` and `Runner` collaborators are modelled as
function-valued fields returning `Except`, mirroring their Go interfaces with
the `context.Context` argument dropped (it carries no data the tool reads).
-/

namespace Shelley

/-- The kept alphabet of `sanitizeSlug`: the condition
`(r >= 'a' && r <= 'z') || (r >= '0' && r <= '9') || r == '-'`
from the per-rune loop of `sanitizeSlug` in `claudetool/subagent.go`. -/
def isSlugKeep (c : Char) : Bool :=
  (('a' ≤ c && c ≤ 'z') || ('0' ≤ c && c ≤ '9')) || c == '-'

/-- One iteration of the per-rune loop of `sanitizeSlug`: keep characters of
the slug alphabet, map `' '` and `'_'` to `'-'`, drop everything else.
`some` is a rune written to the builder, `none` a dropped rune. -/
def keepRune (c : Char) : Option Char :=
  if isSlugKeep c then some c
  else if c == ' ' || c == '_' then some '-'
  else none

/-- Models Go `strings.Contains` in list form: `containsList hay pat` is true
iff `pat` occurs as a contiguous segment of `hay`. -/
def containsList : List Char → List Char → Bool
  | [], pat => pat.isEmpty
  | h :: t, pat => pat.isPrefixOf (h :: t) || containsList t pat

/-- Models one call of Go `strings.ReplaceAll s "--" "-"`: scan left to right,
replacing each non-overlapping leftmost occurrence of `"--"` by `"-"`. -/
def replaceAllDashes : List Char → List Char
  | [] => []
  | [c] => [c]
  | a :: b :: rest =>
    if a = '-' ∧ b = '-' then '-' :: replaceAllDashes rest
    else a :: replaceAllDashes (b :: rest)

/-- Models `strings.Contains(s, "--")` as used by the collapse loop of
`sanitizeSlug`. -/
def containsDashDash (l : List Char) : Bool :=
  containsList l ['-', '-']

/-- Models the collapse loop of `sanitizeSlug`:
`for strings.Contains(s, "--") { s = strings.ReplaceAll(s, "--", "-") }`.
The loop terminates because each replacement shortens the string. -/
def collapseDashes (l : List Char) : List Char :=
  if h : containsDashDash l = true then collapseDashes (replaceAllDashes l)
  else l
termination_by l.length
decreasing_by
  have hle : ∀ m : List Char, (replaceAllDashes m).length ≤ m.length := by
    intro m
    induction m using replaceAllDashes.induct with
    | case1 => simp [replaceAllDashes]
    | case2 c => simp [replaceAllDashes]
    | case3 a b rest h' ih =>
      simp only [replaceAllDashes, if_pos h', List.length_cons]
      omega
    | case4 a b rest h' ih =>
      simp only [replaceAllDashes, if_neg h', List.length_cons]
      simp only [List.length_cons] at ih
      omega
  have hlt : ∀ m : List Char, containsDashDash m = true →
      (replaceAllDashes m).length < m.length := by
    intro m
    induction m using replaceAllDashes.induct with
    | case1 => intro hm; simp [containsDashDash, containsList] at hm
    | case2 c =>
      intro hm
      have hcc : containsDashDash [c] =
          ((['-', '-'] : List Char).isPrefixOf [c] || containsDashDash []) := rfl
      rw [hcc] at hm
      rcases Bool.or_eq_true_iff.mp hm with h1 | h1
      · simp [List.isPrefixOf] at h1
      · simp [containsDashDash, containsList] at h1
    | case3 a b rest h' ih =>
      intro _
      simp only [replaceAllDashes, if_pos h', List.length_cons]
      have := hle rest
      omega
    | case4 a b rest h' ih =>
      intro hm
      have hc' : containsDashDash (b :: rest) = true := by
        have hcc : containsDashDash (a :: b :: rest) =
            ((['-', '-'] : List Char).isPrefixOf (a :: b :: rest) ||
              containsDashDash (b :: rest)) := rfl
        rw [hcc] at hm
        rcases Bool.or_eq_true_iff.mp hm with h1 | h1
        · exfalso
          simp only [List.isPrefixOf, List.isPrefixOf_nil_left, Bool.and_true,
            Bool.and_eq_true, beq_iff_eq] at h1
          exact h' ⟨h1.1.symm, h1.2.symm⟩
        · exact h1
      simp only [replaceAllDashes, if_neg h', List.length_cons]
      have := ih hc'
      simp only [List.length_cons] at this
      omega
  exact hlt l h

/-- The specification's collapse step, rendered directly from its words:
"collapse runs of `-` to a single `-`". A dash followed by a dash is dropped,
so each maximal run of dashes keeps exactly its last dash. -/
def specCollapse : List Char → List Char
  | [] => []
  | [c] => [c]
  | a :: b :: rest =>
    if a = '-' ∧ b = '-' then specCollapse (b :: rest)
    else a :: specCollapse (b :: rest)

/-- Models `strings.Trim(s, "-")`: remove leading and trailing `'-'`. -/
def trimDashes (l : List Char) : List Char :=
  ((l.dropWhile (fun c => c == '-')).reverse.dropWhile (fun c => c == '-')).reverse

/-- `pat` occurs as a contiguous segment of `hay` (what `strings.Contains`
detects). -/
def hasSub (hay pat : List Char) : Prop :=
  ∃ a b, hay = a ++ pat ++ b

/-- `pat` occurs as a contiguous substring of `s`. -/
def strContains (s pat : String) : Prop :=
  hasSub s.data pat.data

/-- `sanitizeSlug` from `claudetool/subagent.go`: lower-case the string, run
the per-rune keep/map/drop loop, collapse `"--"` runs by the `ReplaceAll`
loop, and trim `'-'` from both ends. -/
def sanitizeSlug (s : String) : String :=
  String.mk (trimDashes (collapseDashes ((s.data.map Char.toLower).filterMap keepRune)))

/-- The specification's sanitization algorithm, step for step in the spec's
order: lowercase; map `' '` and `'_'` to `'-'`; drop any character not in
`[a-z0-9-]`; collapse runs of `-` to a single `-`; trim leading and trailing
`-`. -/
def specSanitizeSlug (s : String) : String :=
  String.mk (trimDashes (specCollapse
    (((s.data.map Char.toLower).map
        (fun c => if c == ' ' || c == '_' then '-' else c)).filter isSlugKeep)))

/-- An available model: `(id, display name)`; from `claudetool/subagent.go`. -/
structure AvailableModel where
  ID : String
  DisplayName : String
deriving DecidableEq

/-- The decoded `subagentInput` request of `claudetool/subagent.go`. A JSON
`omitempty` integer decodes to `0` when absent and a missing `wait` is `none`. -/
structure subagentInput where
  Slug : String
  Prompt : String
  TimeoutSeconds : Int
  Wait : Option Bool
  Model : String
deriving DecidableEq

/-- `SubagentDisplayData` from `claudetool/subagent.go`: the display payload
sent to the UI. -/
structure SubagentDisplayData where
  Slug : String
  ConversationID : String
deriving DecidableEq

/-- Modelled from the spec: `llm.ToolOut` (the `llm` package is not part of
the analysed sources). Per the spec, tool output "carries `LLMContent` (what
the model sees) and `Display` (what the UI renders) and/or an `Error`". -/
structure ToolOut where
  LLMContent : String
  Display : Option SubagentDisplayData
  Error : Option String
deriving DecidableEq

/-- Modelled from the spec: `llm.ErrorfToolOut` builds a tool output carrying
only the formatted error message; validation errors "are returned as
tool-level errors". -/
def ErrorfToolOut (msg : String) : ToolOut :=
  { LLMContent := "", Display := none, Error := some msg }

/-- One external call made by `SubagentTool.Run`: either the database call
`GetOrCreateSubagentConversation(slug, parentID, cwd)` or the runner call
`RunSubagent(conversationID, prompt, wait, timeout, modelID)`. `timeout` is
in nanoseconds, as Go's `time.Duration`. -/
inductive ExtCall where
  | getOrCreate (slug parentID cwd : String)
  | runSubagent (conversationID prompt : String) (wait : Bool) (timeout : Int) (modelID : String)
deriving DecidableEq

/-- Go's `time.Second` in nanoseconds. -/
def goSecond : Int := 1000000000

/-- `SubagentTool` from `claudetool/subagent.go`. `WorkingDir` holds the value
`s.WorkingDir.Get()` reads at call time; `DB` and `Runner` are the injected
collaborators, modelled as functions of the arguments the Go interfaces take
(minus the context). -/
structure SubagentTool where
  ParentConversationID : String
  WorkingDir : String
  ModelID : String
  AvailableModels : List AvailableModel
  DB : String → String → String → Except String (String × String)
  Runner : String → String → Bool → Int → String → Except String String

/-- The fixed part of the tool description built by
`SubagentTool.subagentDescription`. -/
def descriptionBase : String :=
  "Spawn or interact with a subagent conversation.\n\nSubagents are independent conversations that can work on subtasks in parallel.\nUse subagents for:\n- Long-running tasks that you want to delegate\n- Token-intensive tasks that produce lots of output, little of which is needed\n- Parallel exploration of different approaches\n- Breaking down complex problems into independent pieces\n\nEach subagent has its own slug identifier within this conversation.\nYou can send messages to existing subagents by using the same slug.\nThe tool returns the subagent's last response, or a status if the timeout is reached."

/-- The header line appended to the description when models are available. -/
def modelsHeader : String :=
  "\n\nAvailable models (use the \"model\" parameter to override the default):"

/-- One model line of the description: `"- <id> (<display>)"` when a distinct
display name exists, else `"- <id>"`. -/
def modelLine (m : AvailableModel) : String :=
  if m.DisplayName ≠ "" ∧ m.DisplayName ≠ m.ID then
    "\n- " ++ m.ID ++ " (" ++ m.DisplayName ++ ")"
  else
    "\n- " ++ m.ID

/-- `SubagentTool.subagentDescription` from `claudetool/subagent.go`. -/
def SubagentTool.subagentDescription (s : SubagentTool) : String :=
  if s.AvailableModels.length > 0 then
    descriptionBase ++ modelsHeader ++ String.join (s.AvailableModels.map modelLine)
  else descriptionBase

/-- Hex digit used by the quote model (lowercase, as `strconv`). -/
def hexDigitChar (n : Nat) : Char :=
  if n < 10 then Char.ofNat (48 + n) else Char.ofNat (87 + (n - 10))

/-- Fixed-width lowercase hex rendering. -/
def hexPad (w n : Nat) : String :=
  String.mk ((List.range w).reverse.map (fun i => hexDigitChar (n / 16 ^ i % 16)))

/-- Models Go's `%q` escaping (`strconv.Quote`) for one rune: quote and
backslash get escaped, printable ASCII passes through, the standard control
escapes apply, everything else is hex-escaped. (Go additionally leaves
non-ASCII printable runes unescaped; the theorems below only evaluate this on
ASCII model ids, where the two agree.) -/
def goQuoteChar (c : Char) : String :=
  if c = '"' then "\\\""
  else if c = '\\' then "\\\\"
  else if 0x20 ≤ c.toNat ∧ c.toNat < 0x7f then String.mk [c]
  else if c = Char.ofNat 7 then "\\a"
  else if c = Char.ofNat 8 then "\\b"
  else if c = Char.ofNat 12 then "\\f"
  else if c = '\n' then "\\n"
  else if c = Char.ofNat 13 then "\\r"
  else if c = '\t' then "\\t"
  else if c = Char.ofNat 11 then "\\v"
  else if c.toNat < 0x80 then "\\x" ++ hexPad 2 c.toNat
  else if c.toNat < 0x10000 then "\\u" ++ hexPad 4 c.toNat
  else "\\U" ++ hexPad 8 c.toNat

/-- Models Go's `fmt.Sprintf("%q", s)`. -/
def goQuote (s : String) : String :=
  "\"" ++ String.join (s.data.map goQuoteChar) ++ "\""

/-- The fixed schema text before the optional model property
(`SubagentTool.subagentInputSchema`). -/
def schemaPre : String :=
  "\x7b\n  \"type\": \"object\",\n  \"required\": [\"slug\", \"prompt\"],\n  \"properties\": \x7b\n    \"slug\": \x7b\n      \"type\": \"string\",\n      \"description\": \"A short identifier for this subagent (e.g., 'research-api', 'test-runner')\"\n    \x7d,\n    \"prompt\": \x7b\n      \"type\": \"string\",\n      \"description\": \"The message to send to the subagent\"\n    \x7d,\n    \"timeout_seconds\": \x7b\n      \"type\": \"integer\",\n      \"description\": \"How long to wait for a response (default: 60, max: 300)\"\n    \x7d,\n    \"wait\": \x7b\n      \"type\": \"boolean\",\n      \"description\": \"Whether to wait for completion (default: true). If false, returns immediately.\"\n    \x7d"

/-- The fixed schema text after the optional model property. -/
def schemaPost : String := "\n  \x7d\n\x7d"

/-- The model property text before the enum items. -/
def modelPropA : String :=
  ",\n    \"model\": \x7b\n      \"type\": \"string\",\n      \"description\": \"LLM model for the subagent. Defaults to the parent conversation's model.\",\n      \"enum\": ["

/-- The model property text after the enum items. -/
def modelPropB : String := "]\n    \x7d"

/-- The `strings.Join(enumItems, ", ")` of the quoted model ids. -/
def enumJoined (models : List AvailableModel) : String :=
  String.intercalate ", " (models.map (fun m => goQuote m.ID))

/-- The optional `model` property of the schema: present exactly when models
are configured. -/
def modelProp (models : List AvailableModel) : String :=
  if models.length > 0 then modelPropA ++ enumJoined models ++ modelPropB else ""

/-- `SubagentTool.subagentInputSchema` from `claudetool/subagent.go`. -/
def SubagentTool.subagentInputSchema (s : SubagentTool) : String :=
  schemaPre ++ modelProp s.AvailableModels ++ schemaPost

/-- Step 4 of `SubagentTool.Run`: the timeout resolution
`timeout := 60 * time.Second; if req.TimeoutSeconds > 0 { if > 300 { = 300 };
timeout = Duration(req.TimeoutSeconds) * time.Second }`, in nanoseconds. -/
def resolveTimeout (t : Int) : Int :=
  if t > 0 then (if t > 300 then 300 else t) * goSecond
  else 60 * goSecond

/-- Step 5 of `SubagentTool.Run`: `wait := true; if req.Wait != nil { wait =
*req.Wait }`. -/
def resolveWait (w : Option Bool) : Bool :=
  match w with
  | some b => b
  | none => true

/-- Step 6 of `SubagentTool.Run` (lines 171-191 of `claudetool/subagent.go`):
start from the parent's model id; an explicit request model overrides it, but
when models are configured it must be one of them, else a descriptive error
listing all known ids is returned. -/
def SubagentTool.resolveModel (s : SubagentTool) (reqModel : String) : Except ToolOut String :=
  if reqModel ≠ "" then
    if s.AvailableModels.length > 0 then
      if s.AvailableModels.any (fun m => m.ID == reqModel) then .ok reqModel
      else .error (ErrorfToolOut ("unknown model " ++ goQuote reqModel ++
        "; available: " ++
        String.intercalate ", " (s.AvailableModels.map (fun m => m.ID))))
    else .ok reqModel
  else .ok s.ModelID

/-- `SubagentTool.Run` from `claudetool/subagent.go`, as a pure function of
the decoded input (`none` models a `json.Unmarshal` failure). Besides the
tool output it returns the list of external calls made, in order. -/
def SubagentTool.Run (s : SubagentTool) (decoded : Option subagentInput) :
    ToolOut × List ExtCall :=
  match decoded with
  | none => (ErrorfToolOut "failed to parse subagent input", [])
  | some req =>
    if req.Slug = "" then (ErrorfToolOut "slug is required", [])
    else
      let slug := sanitizeSlug req.Slug
      if slug = "" then (ErrorfToolOut "slug must contain alphanumeric characters", [])
      else if req.Prompt = "" then (ErrorfToolOut "prompt is required", [])
      else
        let timeout : Int := resolveTimeout req.TimeoutSeconds
        let wait : Bool := resolveWait req.Wait
        match s.resolveModel req.Model with
        | .error out => (out, [])
        | .ok modelID =>
          match s.DB slug s.ParentConversationID s.WorkingDir with
          | .error e =>
            (ErrorfToolOut ("failed to get/create subagent conversation: " ++ e),
             [ExtCall.getOrCreate slug s.ParentConversationID s.WorkingDir])
          | .ok (conversationID, actualSlug) =>
            match s.Runner conversationID req.Prompt wait timeout modelID with
            | .error e =>
              (ErrorfToolOut ("subagent error: " ++ e),
               [ExtCall.getOrCreate slug s.ParentConversationID s.WorkingDir,
                ExtCall.runSubagent conversationID req.Prompt wait timeout modelID])
            | .ok response =>
              let slugNote : String :=
                if actualSlug ≠ slug then
                  " (Note: slug was changed to '" ++ actualSlug ++
                    "' for uniqueness. Use '" ++ actualSlug ++
                    "' for future messages to this subagent.)"
                else ""
              ({ LLMContent := "Subagent '" ++ actualSlug ++ "' response:" ++
                   slugNote ++ "\n" ++ response,
                 Display := some { Slug := actualSlug, ConversationID := conversationID },
                 Error := none },
               [ExtCall.getOrCreate slug s.ParentConversationID s.WorkingDir,
                ExtCall.runSubagent conversationID req.Prompt wait timeout modelID])

/-- The timeouts of the runner calls in a trace, in order. -/
def runnerTimeouts (tr : List ExtCall) : List Int :=
  tr.filterMap (fun c => match c with
    | ExtCall.runSubagent _ _ _ t _ => some t
    | _ => none)

/-- The model ids of the runner calls in a trace, in order. -/
def runnerModelIDs (tr : List ExtCall) : List String :=
  tr.filterMap (fun c => match c with
    | ExtCall.runSubagent _ _ _ _ m => some m
    | _ => none)

/-- A database stub behaving like the test mock: fresh conversation id,
slug returned unchanged. -/
def okDB : String → String → String → Except String (String × String) :=
  fun slug _ _ => .ok ("subagent-" ++ slug, slug)

/-- A runner stub returning a fixed response. -/
def okRunner (resp : String) : String → String → Bool → Int → String → Except String String :=
  fun _ _ _ _ _ => .ok resp

/-- A concrete tool with an empty model registry. -/
def toolNoModels : SubagentTool :=
  { ParentConversationID := "parent-123", WorkingDir := "/tmp", ModelID := "parent-model",
    AvailableModels := [], DB := okDB, Runner := okRunner "OK" }

/-- A concrete tool with a two-entry model registry. -/
def toolTwoModels : SubagentTool :=
  { ParentConversationID := "parent-123", WorkingDir := "/tmp", ModelID := "model-a",
    AvailableModels := [{ ID := "model-a", DisplayName := "" },
                        { ID := "model-b", DisplayName := "Model B" }],
    DB := okDB, Runner := okRunner "OK" }

/-- A request naming a model outside any registry. -/
def reqUnknownModel : subagentInput :=
  { Slug := "task", Prompt := "p", TimeoutSeconds := 0, Wait := none, Model := "nonexistent-model" }

/-- A request with an empty slug. -/
def reqEmptySlug : subagentInput :=
  { Slug := "", Prompt := "p", TimeoutSeconds := 0, Wait := none, Model := "" }

/-- A request whose slug holds no alphanumeric character and whose prompt is
empty. -/
def reqSlugOnlySymbols : subagentInput :=
  { Slug := "@", Prompt := "", TimeoutSeconds := 0, Wait := none, Model := "" }

/-- A plain valid request. -/
def reqPlain : subagentInput :=
  { Slug := "task", Prompt := "p", TimeoutSeconds := 0, Wait := none, Model := "" }

/-- A valid request with an over-large timeout. -/
def reqBigTimeout : subagentInput :=
  { Slug := "task", Prompt := "p", TimeoutSeconds := 9999, Wait := none, Model := "" }

/-- A valid request selecting the registry's second model. -/
def reqModelB : subagentInput :=
  { Slug := "task", Prompt := "p", TimeoutSeconds := 0, Wait := none, Model := "model-b" }

theorem containsList_cons (c : Char) (t pat : List Char) :
    containsList (c :: t) pat = (pat.isPrefixOf (c :: t) || containsList t pat) := rfl

theorem specCollapse_dd (r : List Char) :
    specCollapse ('-' :: '-' :: r) = specCollapse ('-' :: r) := by
  simp [specCollapse]

theorem specCollapse_cons₂ {a b : Char} (r : List Char) (h : ¬(a = '-' ∧ b = '-')) :
    specCollapse (a :: b :: r) = a :: specCollapse (b :: r) := by
  rw [specCollapse, if_neg h]

/-- `specCollapse` keeps the head character of a non-empty list. -/
theorem specCollapse_cons_head : ∀ (l : List Char) (c : Char),
    ∃ t, specCollapse (c :: l) = c :: t := by
  intro l
  induction l with
  | nil => intro c; exact ⟨[], rfl⟩
  | cons d r ih =>
    intro c
    by_cases h : c = '-' ∧ d = '-'
    · obtain ⟨t, ht⟩ := ih '-'
      rw [h.1, h.2, specCollapse_dd, ht]
      exact ⟨t, rfl⟩
    · exact ⟨specCollapse (d :: r), specCollapse_cons₂ r h⟩

/-- Replacing `"--"` by `"-"` once does not change the collapsed form. -/
theorem specCollapse_cons_replaceAll : ∀ (u : List Char) (c : Char),
    specCollapse (c :: replaceAllDashes u) = specCollapse (c :: u) := by
  intro u
  induction u using replaceAllDashes.induct with
  | case1 => intro c; rfl
  | case2 d => intro c; rfl
  | case3 a b rest h ih =>
    intro c
    rw [replaceAllDashes, if_pos h, h.1, h.2]
    by_cases hc : c = '-'
    · subst hc
      rw [specCollapse_dd, specCollapse_dd, specCollapse_dd, ih '-']
    · rw [specCollapse_cons₂ _ (fun hh => hc hh.1),
        specCollapse_cons₂ _ (fun hh => hc hh.1), specCollapse_dd, ih '-']
  | case4 a b rest h ih =>
    intro c
    rw [replaceAllDashes, if_neg h]
    by_cases hca : c = '-' ∧ a = '-'
    · rw [hca.1, hca.2, specCollapse_dd, specCollapse_dd, ih '-']
    · rw [specCollapse_cons₂ _ hca, specCollapse_cons₂ _ hca, ih a]

theorem specCollapse_replaceAll (l : List Char) :
    specCollapse (replaceAllDashes l) = specCollapse l := by
  match l with
  | [] => rfl
  | [c] => rfl
  | a :: b :: rest =>
    by_cases h : a = '-' ∧ b = '-'
    · rw [replaceAllDashes, if_pos h, h.1, h.2, specCollapse_dd,
        specCollapse_cons_replaceAll rest '-']
    · rw [replaceAllDashes, if_neg h, specCollapse_cons_replaceAll (b :: rest) a,
        specCollapse_cons₂ _ h]

/-- A list without `"--"` is already collapsed. -/
theorem specCollapse_of_not_dd : ∀ l : List Char, containsDashDash l = false →
    specCollapse l = l := by
  intro l
  induction l using specCollapse.induct with
  | case1 => intro _; rfl
  | case2 c => intro _; rfl
  | case3 a b rest h ih =>
    intro hc
    exfalso
    rw [h.1, h.2] at hc
    rw [containsDashDash, containsList_cons] at hc
    have : (['-', '-'] : List Char).isPrefixOf ('-' :: '-' :: rest) = true := by
      simp [List.isPrefixOf]
    simp [this] at hc
  | case4 a b rest h ih =>
    intro hc
    have hc' : containsDashDash (b :: rest) = false := by
      rw [containsDashDash, containsList_cons] at hc
      rcases Bool.or_eq_false_iff.mp hc with ⟨_, h2⟩
      exact h2
    rw [specCollapse_cons₂ _ h, ih hc']

/-- The `ReplaceAll` loop of `sanitizeSlug` computes exactly the
specification's run collapse. -/
theorem collapseDashes_eq_specCollapse : ∀ l : List Char,
    collapseDashes l = specCollapse l := by
  intro l
  induction l using collapseDashes.induct with
  | case1 l h ih =>
    rw [collapseDashes, dif_pos h, ih, specCollapse_replaceAll]
  | case2 l h =>
    rw [collapseDashes, dif_neg h, specCollapse_of_not_dd l (by simpa using h)]

theorem isPrefixOf_iff (l₁ l₂ : List Char) : l₁.isPrefixOf l₂ = true ↔ ∃ t, l₁ ++ t = l₂ := by
  induction l₁ generalizing l₂ with
  | nil => simp
  | cons a as ih =>
    cases l₂ with
    | nil => simp [List.isPrefixOf]
    | cons b bs =>
      rw [List.isPrefixOf_cons₂, Bool.and_eq_true, beq_iff_eq, ih bs]
      constructor
      · rintro ⟨rfl, t, rfl⟩; exact ⟨t, rfl⟩
      · rintro ⟨t, ht⟩
        injection ht with h1 h2
        exact ⟨h1, t, h2⟩

theorem containsList_iff_hasSub (hay pat : List Char) :
    containsList hay pat = true ↔ hasSub hay pat := by
  induction hay with
  | nil =>
    simp only [containsList, List.isEmpty_iff, hasSub]
    constructor
    · rintro rfl; exact ⟨[], [], rfl⟩
    · rintro ⟨a, b, hab⟩
      rcases List.append_eq_nil.mp hab.symm with ⟨h1, h2⟩
      exact (List.append_eq_nil.mp h1).2
  | cons h t ih =>
    rw [containsList_cons, Bool.or_eq_true_iff, ih, isPrefixOf_iff]
    constructor
    · rintro (⟨u, hu⟩ | ⟨a, b, rfl⟩)
      · exact ⟨[], u, hu.symm⟩
      · exact ⟨h :: a, b, rfl⟩
    · rintro ⟨a, b, hab⟩
      cases a with
      | nil => exact Or.inl ⟨b, by simpa using hab.symm⟩
      | cons a₀ as =>
        right
        refine ⟨as, b, ?_⟩
        injection hab with h1 h2

theorem hasSub_mono_middle {m pat : List Char} (x y : List Char) (h : hasSub m pat) :
    hasSub (x ++ m ++ y) pat := by
  obtain ⟨a, b, rfl⟩ := h
  exact ⟨x ++ a, b ++ y, by simp⟩

/-- The collapsed list never contains `"--"`. -/
theorem specCollapse_not_dd : ∀ l : List Char, containsDashDash (specCollapse l) = false := by
  intro l
  induction l using specCollapse.induct with
  | case1 => rfl
  | case2 c =>
    rw [specCollapse, containsDashDash, containsList_cons]
    simp [List.isPrefixOf, containsList]
  | case3 a b rest h ih =>
    obtain ⟨ha, hb⟩ := h
    subst ha; subst hb
    rw [specCollapse_dd]
    exact ih
  | case4 a b rest h ih =>
    rw [specCollapse_cons₂ _ h]
    obtain ⟨t, ht⟩ := specCollapse_cons_head rest b
    rw [containsDashDash, containsList_cons, Bool.or_eq_false_iff]
    refine ⟨?_, ih⟩
    rw [ht]
    by_cases ha : a = '-'
    · have hb : ¬ b = '-' := fun hb => h ⟨ha, hb⟩
      simp only [List.isPrefixOf, List.isPrefixOf_nil_left, Bool.and_true]
      rw [Bool.and_eq_false_iff]
      right
      exact beq_eq_false_iff_ne.mpr fun hh => hb hh.symm
    · simp only [List.isPrefixOf, List.isPrefixOf_nil_left, Bool.and_true]
      rw [Bool.and_eq_false_iff]
      left
      exact beq_eq_false_iff_ne.mpr fun hh => ha hh.symm

/-- Every character of the collapsed list comes from the input. -/
theorem mem_specCollapse : ∀ l : List Char, ∀ c ∈ specCollapse l, c ∈ l := by
  intro l
  induction l using specCollapse.induct with
  | case1 => intro c hc; exact hc
  | case2 d => intro c hc; exact hc
  | case3 a b rest h ih =>
    obtain ⟨ha, hb⟩ := h
    subst ha; subst hb
    intro c hc
    rw [specCollapse_dd] at hc
    exact List.mem_cons_of_mem _ (ih c hc)
  | case4 a b rest h ih =>
    intro c hc
    rw [specCollapse_cons₂ _ h] at hc
    rcases List.mem_cons.mp hc with rfl | hc
    · exact List.mem_cons_self _ _
    · exact List.mem_cons_of_mem _ (ih c hc)

theorem head_dropWhile_false (p : Char → Bool) :
    ∀ l : List Char, ∀ c, (l.dropWhile p).head? = some c → p c = false := by
  intro l
  induction l with
  | nil => intro c hc; simp at hc
  | cons a t ih =>
    intro c hc
    rw [List.dropWhile_cons] at hc
    by_cases ha : p a = true
    · rw [if_pos ha] at hc
      exact ih c hc
    · rw [if_neg ha] at hc
      simp only [List.head?_cons, Option.some.injEq] at hc
      subst hc
      exact Bool.not_eq_true _ ▸ ha

theorem dropWhile_eq_self_of_head (p : Char → Bool) (l : List Char)
    (h : ∀ c, l.head? = some c → p c = false) : l.dropWhile p = l := by
  cases l with
  | nil => rfl
  | cons a t =>
    rw [List.dropWhile_cons, if_neg]
    rw [h a rfl]
    simp

/-- Every list splits as leading dashes, its trimmed core, and trailing
dashes. -/
theorem trimDashes_decomp (l : List Char) : ∃ x y, l = x ++ trimDashes l ++ y := by
  refine ⟨l.takeWhile (fun c => c == '-'),
    ((l.dropWhile (fun c => c == '-')).reverse.takeWhile (fun c => c == '-')).reverse, ?_⟩
  have hr : ∀ m : List Char,
      m = (m.reverse.dropWhile (fun c => c == '-')).reverse ++
        (m.reverse.takeWhile (fun c => c == '-')).reverse := by
    intro m
    conv_lhs => rw [← List.reverse_reverse m,
      ← List.takeWhile_append_dropWhile (p := fun c => c == '-') (l := m.reverse)]
    rw [List.reverse_append]
  conv_lhs => rw [← List.takeWhile_append_dropWhile (p := fun c => c == '-') (l := l),
    hr (l.dropWhile (fun c => c == '-'))]
  rw [trimDashes, List.append_assoc]

theorem trimDashes_head {l : List Char} {c : Char}
    (hc : (trimDashes l).head? = some c) : (c == '-') = false := by
  cases htr : trimDashes l with
  | nil => rw [htr] at hc; simp at hc
  | cons d t =>
    rw [htr] at hc
    simp only [List.head?_cons, Option.some.injEq] at hc
    subst hc
    have hmid : trimDashes l ++ ((l.dropWhile (fun x => x == '-')).reverse.takeWhile
        (fun x => x == '-')).reverse = l.dropWhile (fun x => x == '-') := by
      rw [trimDashes]
      conv_rhs => rw [← List.reverse_reverse (l.dropWhile (fun x => x == '-')),
        ← List.takeWhile_append_dropWhile (p := fun x => x == '-')
          (l := (l.dropWhile (fun x => x == '-')).reverse)]
      rw [List.reverse_append]
    rw [htr] at hmid
    have hhead : (l.dropWhile (fun x => x == '-')).head? = some d := by
      rw [← hmid]
      rfl
    exact head_dropWhile_false _ l d hhead

theorem trimDashes_getLast {l : List Char} {c : Char}
    (hc : (trimDashes l).getLast? = some c) : (c == '-') = false := by
  rw [← List.head?_reverse] at hc
  rw [trimDashes, List.reverse_reverse] at hc
  exact head_dropWhile_false _ _ c hc

theorem trimDashes_eq_self (l : List Char)
    (h1 : ∀ c, l.head? = some c → (c == '-') = false)
    (h2 : ∀ c, l.getLast? = some c → (c == '-') = false) : trimDashes l = l := by
  rw [trimDashes, dropWhile_eq_self_of_head _ l h1, dropWhile_eq_self_of_head, List.reverse_reverse]
  intro c hc
  rw [List.head?_reverse] at hc
  exact h2 c hc

theorem mem_trimDashes {l : List Char} {c : Char} (hc : c ∈ trimDashes l) : c ∈ l := by
  obtain ⟨x, y, hxy⟩ := trimDashes_decomp l
  rw [hxy]
  simp only [List.mem_append]
  exact Or.inl (Or.inr hc)

theorem not_dd_trimDashes {l : List Char} (h : containsDashDash l = false) :
    containsDashDash (trimDashes l) = false := by
  by_contra hne
  have htr : containsDashDash (trimDashes l) = true := by
    cases hx : containsDashDash (trimDashes l)
    · exact absurd hx hne
    · rfl
  obtain ⟨x, y, hxy⟩ := trimDashes_decomp l
  have : containsDashDash l = true := by
    rw [containsDashDash, containsList_iff_hasSub, hxy]
    exact hasSub_mono_middle x y ((containsList_iff_hasSub _ _).mp htr)
  rw [this] at h
  exact absurd h (by simp)

theorem isSlugKeep_toNat {c : Char} (h : isSlugKeep c = true) :
    (97 ≤ c.toNat ∧ c.toNat ≤ 122) ∨ (48 ≤ c.toNat ∧ c.toNat ≤ 57) ∨ c.toNat = 45 := by
  rw [isSlugKeep, Bool.or_eq_true, Bool.or_eq_true] at h
  rcases h with (h | h) | h
  · rw [Bool.and_eq_true, decide_eq_true_iff, decide_eq_true_iff] at h
    exact Or.inl ⟨h.1, h.2⟩
  · rw [Bool.and_eq_true, decide_eq_true_iff, decide_eq_true_iff] at h
    exact Or.inr (Or.inl ⟨h.1, h.2⟩)
  · rw [beq_iff_eq] at h
    subst h
    exact Or.inr (Or.inr rfl)

/-- Go's `strings.ToLower` fixes the kept slug alphabet, and so does
`Char.toLower`. -/
theorem toLower_eq_self_of_keep (c : Char) (h : isSlugKeep c = true) : c.toLower = c := by
  have hn := isSlugKeep_toNat h
  unfold Char.toLower
  rw [if_neg (by omega)]

theorem keepRune_eq_self_of_keep (c : Char) (h : isSlugKeep c = true) : keepRune c = some c := by
  rw [keepRune, if_pos h]

theorem isSlugKeep_of_keepRune {c d : Char} (h : keepRune c = some d) : isSlugKeep d = true := by
  rw [keepRune] at h
  by_cases h1 : isSlugKeep c = true
  · rw [if_pos h1] at h
    injection h with h
    subst h
    exact h1
  · rw [if_neg h1] at h
    by_cases h2 : (c == ' ' || c == '_') = true
    · rw [if_pos h2] at h
      injection h with h
      subst h
      rfl
    · rw [if_neg h2] at h
      exact absurd h (by simp)

theorem mk_data (s : String) : String.mk s.data = s := by
  cases s
  rfl

/-- Evaluation form of `sanitizeSlug`: the `ReplaceAll` loop replaced by the
structurally recursive `specCollapse`. -/
theorem sanitizeSlug_eval (s : String) :
    sanitizeSlug s = String.mk (trimDashes (specCollapse
      ((s.data.map Char.toLower).filterMap keepRune))) := by
  rw [sanitizeSlug, collapseDashes_eq_specCollapse]

theorem all_keep_filterMap (l : List Char) : ∀ d ∈ l.filterMap keepRune, isSlugKeep d = true := by
  intro d hd
  obtain ⟨a, _, ha⟩ := List.mem_filterMap.mp hd
  exact isSlugKeep_of_keepRune ha

theorem filterMap_keepRune_eq_self (l : List Char) (h : ∀ c ∈ l, isSlugKeep c = true) :
    l.filterMap keepRune = l := by
  induction l with
  | nil => rfl
  | cons a t ih =>
    have ha := keepRune_eq_self_of_keep a (h a (List.mem_cons_self a t))
    rw [List.filterMap_cons, ha, ih fun c hc => h c (List.mem_cons_of_mem a hc)]

theorem map_toLower_eq_self (l : List Char) (h : ∀ c ∈ l, isSlugKeep c = true) :
    l.map Char.toLower = l := by
  have hc : ∀ c ∈ l, Char.toLower c = id c := fun c hc => toLower_eq_self_of_keep c (h c hc)
  rw [List.map_congr_left hc, List.map_id]

theorem sanitized_chars (s : String) : ∀ c ∈ (sanitizeSlug s).data, isSlugKeep c = true := by
  intro c hc
  rw [sanitizeSlug_eval] at hc
  exact all_keep_filterMap _ c (mem_specCollapse _ c (mem_trimDashes hc))

theorem sanitized_not_dd (s : String) : containsDashDash (sanitizeSlug s).data = false := by
  rw [sanitizeSlug_eval]
  exact not_dd_trimDashes (specCollapse_not_dd _)

theorem sanitized_head (s : String) :
    ∀ c, (sanitizeSlug s).data.head? = some c → (c == '-') = false := by
  intro c hc
  rw [sanitizeSlug_eval] at hc
  exact trimDashes_head hc

theorem sanitized_getLast (s : String) :
    ∀ c, (sanitizeSlug s).data.getLast? = some c → (c == '-') = false := by
  intro c hc
  rw [sanitizeSlug_eval] at hc
  exact trimDashes_getLast hc

/-- A string already in sanitized shape is fixed by `sanitizeSlug`. -/
theorem sanitizeSlug_mk_fix (y : List Char)
    (hk : ∀ c ∈ y, isSlugKeep c = true)
    (hdd : containsDashDash y = false)
    (hh : ∀ c, y.head? = some c → (c == '-') = false)
    (hl : ∀ c, y.getLast? = some c → (c == '-') = false) :
    sanitizeSlug (String.mk y) = String.mk y := by
  rw [sanitizeSlug_eval]
  have hdata : (String.mk y).data = y := rfl
  rw [hdata, map_toLower_eq_self y hk, filterMap_keepRune_eq_self y hk,
    specCollapse_of_not_dd y hdd, trimDashes_eq_self y hh hl]

theorem isSlugKeep_not_space_underscore {a : Char} (h : isSlugKeep a = true) :
    (a == ' ' || a == '_') = false := by
  have := isSlugKeep_toNat h
  rw [Bool.or_eq_false_iff]
  constructor
  · rw [beq_eq_false_iff_ne]
    intro hsp
    subst hsp
    simp at this
  · rw [beq_eq_false_iff_ne]
    intro hus
    subst hus
    simp at this

/-- The spec's separate map and drop passes fuse into the source's single
keep/map/drop loop. -/
theorem filter_map_eq_filterMap (l : List Char) :
    (l.map (fun c => if c == ' ' || c == '_' then '-' else c)).filter isSlugKeep =
      l.filterMap keepRune := by
  induction l with
  | nil => rfl
  | cons a t ih =>
    rw [List.map_cons, List.filter_cons, List.filterMap_cons]
    by_cases hsp : (a == ' ' || a == '_') = true
    · have hnk : isSlugKeep a = false := by
        rcases Bool.or_eq_true_iff.mp hsp with h | h
        · rw [beq_iff_eq] at h; subst h; rfl
        · rw [beq_iff_eq] at h; subst h; rfl
      rw [keepRune, hnk]
      simp only [hsp, if_true, Bool.false_eq_true, if_false]
      have : isSlugKeep '-' = true := rfl
      rw [this]
      simp only [if_true, ih]
    · rw [keepRune]
      simp only [hsp, Bool.false_eq_true, if_false]
      by_cases hk : isSlugKeep a = true
      · rw [hk]
        simp only [if_true, ih]
      · rw [Bool.not_eq_true] at hk
        rw [hk]
        simp only [Bool.false_eq_true, if_false, ih]

/-- C4: `sanitizeSlug` computes exactly the specification's algorithm in the
specification's order — lowercase; map space and underscore to `-`; drop
characters outside `[a-z0-9-]`; collapse runs of `-`; trim leading and
trailing `-` — and satisfies the specification's sanitization table. -/
theorem sanitizeSlug_matches_spec :
    (∀ s : String, specSanitizeSlug s = sanitizeSlug s) ∧
    sanitizeSlug "Test Slug" = "test-slug" ∧
    sanitizeSlug "test_slug" = "test-slug" ∧
    sanitizeSlug "test--slug" = "test-slug" ∧
    sanitizeSlug "-test-slug-" = "test-slug" ∧
    sanitizeSlug "test@slug!" = "testslug" ∧
    sanitizeSlug "123-abc" = "123-abc" ∧
    sanitizeSlug "" = "" ∧
    sanitizeSlug "@#$%" = "" := by
  refine ⟨?_, ?_, ?_, ?_, ?_, ?_, ?_, ?_, ?_⟩
  · intro s
    rw [specSanitizeSlug, sanitizeSlug_eval, filter_map_eq_filterMap]
  all_goals rw [sanitizeSlug_eval]
  all_goals rfl

/-- C5: slug sanitization is idempotent:
`sanitizeSlug (sanitizeSlug x) = sanitizeSlug x` for every string `x`. -/
theorem sanitizeSlug_idempotent : ∀ x : String, sanitizeSlug (sanitizeSlug x) = sanitizeSlug x := by
  intro x
  conv_lhs => rw [← mk_data (sanitizeSlug x)]
  rw [sanitizeSlug_mk_fix _ (sanitized_chars x) (sanitized_not_dd x)
    (sanitized_head x) (sanitized_getLast x), mk_data]

/-- C6: for every string `s`, `sanitizeSlug s` contains only characters in
`[a-z0-9-]`, has no leading or trailing `'-'`, and contains no `"--"`
substring. -/
theorem sanitizeSlug_output_shape : ∀ s : String,
    (∀ c ∈ (sanitizeSlug s).data, isSlugKeep c = true) ∧
    (∀ c, (sanitizeSlug s).data.head? = some c → c ≠ '-') ∧
    (∀ c, (sanitizeSlug s).data.getLast? = some c → c ≠ '-') ∧
    ¬ hasSub (sanitizeSlug s).data ['-', '-'] := by
  intro s
  refine ⟨sanitized_chars s, ?_, ?_, ?_⟩
  · intro c hc
    exact beq_eq_false_iff_ne.mp (sanitized_head s c hc)
  · intro c hc
    exact beq_eq_false_iff_ne.mp (sanitized_getLast s c hc)
  · intro hsub
    have hdd := sanitized_not_dd s
    rw [containsDashDash] at hdd
    rw [(containsList_iff_hasSub _ _).mpr hsub] at hdd
    exact absurd hdd (by simp)

/-- Witness for C6 at a concrete input. -/
theorem sanitizeSlug_output_shape_witness :
    (sanitizeSlug "a-b").data.head? = some 'a' ∧ 'a' ≠ '-' := by
  refine ⟨?_, ?_⟩
  · rw [sanitizeSlug_eval]; rfl
  · exact (sanitizeSlug_output_shape "a-b").2.1 'a' (by rw [sanitizeSlug_eval]; rfl)

/-- Any early (validation or model) error returns an error output and makes no
external call. -/
theorem run_early_error (s : SubagentTool) (req : subagentInput)
    (hv : req.Slug = "" ∨ sanitizeSlug req.Slug = "" ∨ req.Prompt = "" ∨
      (req.Model ≠ "" ∧ s.AvailableModels.length > 0 ∧
        s.AvailableModels.any (fun m => m.ID == req.Model) = false)) :
    (s.Run (some req)).1.Error.isSome = true ∧ (s.Run (some req)).2 = [] := by
  by_cases h1 : req.Slug = ""
  · simp only [SubagentTool.Run, if_pos h1]
    exact ⟨by trivial, by trivial⟩
  · by_cases h2 : sanitizeSlug req.Slug = ""
    · simp only [SubagentTool.Run, if_neg h1, if_pos h2]
      exact ⟨by trivial, by trivial⟩
    · by_cases h3 : req.Prompt = ""
      · simp only [SubagentTool.Run, if_neg h1, if_neg h2, if_pos h3]
        exact ⟨by trivial, by trivial⟩
      · rcases hv with hv | hv | hv | ⟨hm1, hm2, hm3⟩
        · exact absurd hv h1
        · exact absurd hv h2
        · exact absurd hv h3
        · have hmc : s.resolveModel req.Model = .error (ErrorfToolOut ("unknown model " ++
              goQuote req.Model ++ "; available: " ++
              String.intercalate ", " (s.AvailableModels.map (fun m => m.ID)))) := by
            rw [SubagentTool.resolveModel, if_pos hm1, if_pos hm2, if_neg (by simp [hm3])]
          simp only [SubagentTool.Run, if_neg h1, if_neg h2, if_neg h3, hmc]
          exact ⟨by trivial, by trivial⟩

/-- C10: on a decode failure or any validation failure (empty slug, slug
sanitizing to empty, empty prompt, rejected model), `Run` returns the error
without calling `GetOrCreateSubagentConversation` or `RunSubagent`. -/
theorem run_no_calls_on_early_error (s : SubagentTool) (d : Option subagentInput)
    (h : d = none ∨ ∃ req, d = some req ∧ (req.Slug = "" ∨ sanitizeSlug req.Slug = "" ∨
      req.Prompt = "" ∨ (req.Model ≠ "" ∧ s.AvailableModels.length > 0 ∧
        s.AvailableModels.any (fun m => m.ID == req.Model) = false))) :
    (s.Run d).1.Error.isSome = true ∧ (s.Run d).2 = [] := by
  rcases h with rfl | ⟨req, rfl, hv⟩
  · exact ⟨by trivial, by trivial⟩
  · exact run_early_error s req hv

/-- Witness for C10 at a concrete input (decode failure). -/
theorem run_no_calls_on_early_error_witness :
    (toolNoModels.Run none).1.Error.isSome = true ∧ (toolNoModels.Run none).2 = [] :=
  run_no_calls_on_early_error toolNoModels none (Or.inl rfl)

/-- C1 (amended): when the registry is non-empty, a supplied model that is not
a member is rejected with a tool error and nothing is dispatched. -/
theorem run_unknown_model_rejected (s : SubagentTool) (req : subagentInput)
    (hne : s.AvailableModels ≠ []) (hm : req.Model ≠ "")
    (hnm : ∀ m ∈ s.AvailableModels, m.ID ≠ req.Model) :
    (s.Run (some req)).1.Error.isSome = true ∧ (s.Run (some req)).2 = [] := by
  apply run_early_error
  right; right; right
  refine ⟨hm, List.length_pos.mpr hne, ?_⟩
  rw [List.any_eq_false]
  intro x hx
  simp only [beq_iff_eq]
  exact hnm x hx

/-- Witness for the amended C1 at a concrete input. -/
theorem run_unknown_model_rejected_witness :
    (toolTwoModels.Run (some reqUnknownModel)).1.Error.isSome = true ∧
    (toolTwoModels.Run (some reqUnknownModel)).2 = [] :=
  run_unknown_model_rejected toolTwoModels reqUnknownModel
    (by decide) (by decide) (by decide)

/-- Counterexample to C1 as stated: with an empty registry the unknown model
is accepted and the runner is called with it. -/
theorem run_model_bypass_counterexample :
    (toolNoModels.Run (some reqUnknownModel)).1.Error = none ∧
    (toolNoModels.Run (some reqUnknownModel)).2 =
      [ExtCall.getOrCreate "task" "parent-123" "/tmp",
       ExtCall.runSubagent "subagent-task" "p" true 60000000000 "nonexistent-model"] := by
  simp only [SubagentTool.Run, sanitizeSlug_eval]
  decide

/-- C2 (amended): `"slug is required"` on an empty slug; the sanitize-empty
check runs next; the `"prompt is required"` check runs only after slug
normalization, when the sanitized slug is non-empty. -/
theorem run_validation_errors (s : SubagentTool) (req : subagentInput) :
    (req.Slug = "" →
      (s.Run (some req)).1 = ErrorfToolOut "slug is required" ∧ (s.Run (some req)).2 = []) ∧
    (req.Slug ≠ "" → sanitizeSlug req.Slug = "" →
      (s.Run (some req)).1 = ErrorfToolOut "slug must contain alphanumeric characters" ∧
        (s.Run (some req)).2 = []) ∧
    (req.Slug ≠ "" → sanitizeSlug req.Slug ≠ "" → req.Prompt = "" →
      (s.Run (some req)).1 = ErrorfToolOut "prompt is required" ∧ (s.Run (some req)).2 = []) := by
  refine ⟨?_, ?_, ?_⟩
  · intro h1
    simp only [SubagentTool.Run, if_pos h1]
    exact ⟨by trivial, by trivial⟩
  · intro h1 h2
    simp only [SubagentTool.Run, if_neg h1, if_pos h2]
    exact ⟨by trivial, by trivial⟩
  · intro h1 h2 h3
    simp only [SubagentTool.Run, if_neg h1, if_neg h2, if_pos h3]
    exact ⟨by trivial, by trivial⟩

/-- Witness for the amended C2 at a concrete input. -/
theorem run_validation_errors_witness :
    (toolNoModels.Run (some reqEmptySlug)).1 = ErrorfToolOut "slug is required" :=
  ((run_validation_errors toolNoModels reqEmptySlug).1 rfl).1

/-- Counterexample to C2 as stated: a non-empty slug that sanitizes to empty
together with an empty prompt produces the alphanumeric error, not
`"prompt is required"` — prompt validation does not precede slug
normalization. -/
theorem run_validation_order_counterexample :
    reqSlugOnlySymbols.Slug ≠ "" ∧ reqSlugOnlySymbols.Prompt = "" ∧
    (toolNoModels.Run (some reqSlugOnlySymbols)).1.Error =
      some "slug must contain alphanumeric characters" ∧
    (toolNoModels.Run (some reqSlugOnlySymbols)).1.Error ≠ some "prompt is required" := by
  refine ⟨by decide, rfl, ?_, ?_⟩
  · simp only [SubagentTool.Run, sanitizeSlug_eval]
    decide
  · simp only [SubagentTool.Run, sanitizeSlug_eval]
    decide

/-- When the requested model is acceptable, step 6 resolves the model to the
request's model if supplied, else the parent's. -/
theorem resolveModel_isOk (s : SubagentTool) (reqModel : String)
    (hmok : reqModel = "" ∨ s.AvailableModels = [] ∨
      s.AvailableModels.any (fun m => m.ID == reqModel) = true) :
    s.resolveModel reqModel = .ok (if reqModel = "" then s.ModelID else reqModel) := by
  by_cases h : reqModel = ""
  · rw [if_pos h, SubagentTool.resolveModel, if_neg (by simp [h])]
  · rw [if_neg h, SubagentTool.resolveModel, if_pos h]
    rcases hmok with hv | hv | hv
    · exact absurd hv h
    · rw [if_neg (by simp [hv])]
    · have hlen : s.AvailableModels.length > 0 := by
        rcases List.any_eq_true.mp hv with ⟨x, hx, _⟩
        refine List.length_pos.mpr ?_
        intro hnil
        rw [hnil] at hx
        simp at hx
      rw [if_pos hlen, if_pos hv]

/-- C3: on a successful call the LLM text is
`"Subagent '<actual>' response:"`, the uniqueness note exactly when the
directory's slug differs from the requested sanitized slug, a newline, and the
runner's text; the display payload is the actual slug and conversation id. -/
theorem run_success_reply (s : SubagentTool) (req : subagentInput) (cid actual resp : String)
    (h1 : req.Slug ≠ "") (h2 : sanitizeSlug req.Slug ≠ "") (h3 : req.Prompt ≠ "")
    (hmok : req.Model = "" ∨ s.AvailableModels = [] ∨
      s.AvailableModels.any (fun m => m.ID == req.Model) = true)
    (hdb : s.DB (sanitizeSlug req.Slug) s.ParentConversationID s.WorkingDir =
      .ok (cid, actual))
    (hrun : ∀ c p w t m, s.Runner c p w t m = Except.ok resp) :
    (s.Run (some req)).1.LLMContent =
      "Subagent '" ++ actual ++ "' response:" ++
        (if actual ≠ sanitizeSlug req.Slug then
          " (Note: slug was changed to '" ++ actual ++ "' for uniqueness. Use '" ++
            actual ++ "' for future messages to this subagent.)"
        else "") ++ "\n" ++ resp ∧
    (s.Run (some req)).1.Display = some { Slug := actual, ConversationID := cid } ∧
    (s.Run (some req)).1.Error = none := by
  have hmc := resolveModel_isOk s req.Model hmok
  simp only [SubagentTool.Run, if_neg h1, if_neg h2, if_neg h3, hmc, hdb, hrun]
  exact ⟨by trivial, by trivial, by trivial⟩

/-- Witness for C3 at a concrete input. -/
theorem run_success_reply_witness :
    (toolNoModels.Run (some reqPlain)).1.LLMContent = "Subagent 'task' response:\nOK" := by
  have h := run_success_reply toolNoModels reqPlain "subagent-task" "task" "OK"
    (by decide) (by rw [sanitizeSlug_eval]; decide) (by decide) (Or.inl rfl)
    (by rw [sanitizeSlug_eval]; rfl) (fun c p w t m => rfl)
  rw [h.1, sanitizeSlug_eval]
  decide

/-- C7: the timeout handed to the runner is the request's value in seconds
when it lies in `[1, 300]`, exactly 300 seconds when larger, and the default
60 seconds when absent (0) or non-positive. -/
theorem run_timeout_clamp (s : SubagentTool) (req : subagentInput)
    (h1 : req.Slug ≠ "") (h2 : sanitizeSlug req.Slug ≠ "") (h3 : req.Prompt ≠ "")
    (hmok : req.Model = "" ∨ s.AvailableModels = [] ∨
      s.AvailableModels.any (fun m => m.ID == req.Model) = true)
    (cid actual : String)
    (hdb : s.DB (sanitizeSlug req.Slug) s.ParentConversationID s.WorkingDir =
      .ok (cid, actual)) :
    (1 ≤ req.TimeoutSeconds → req.TimeoutSeconds ≤ 300 →
      runnerTimeouts (s.Run (some req)).2 = [req.TimeoutSeconds * 1000000000]) ∧
    (300 < req.TimeoutSeconds →
      runnerTimeouts (s.Run (some req)).2 = [300 * 1000000000]) ∧
    (req.TimeoutSeconds ≤ 0 →
      runnerTimeouts (s.Run (some req)).2 = [60 * 1000000000]) := by
  have hmc := resolveModel_isOk s req.Model hmok
  have htr : runnerTimeouts (s.Run (some req)).2 = [resolveTimeout req.TimeoutSeconds] := by
    simp only [SubagentTool.Run, if_neg h1, if_neg h2, if_neg h3, hmc, hdb]
    cases hr : s.Runner cid req.Prompt (resolveWait req.Wait)
        (resolveTimeout req.TimeoutSeconds)
        (if req.Model = "" then s.ModelID else req.Model) with
    | error e => simp [runnerTimeouts, hr]
    | ok r => simp [runnerTimeouts, hr]
  refine ⟨?_, ?_, ?_⟩
  · intro ha hb
    rw [htr, resolveTimeout, if_pos (by omega), if_neg (by omega)]
    rfl
  · intro ha
    rw [htr, resolveTimeout, if_pos (by omega), if_pos (by omega)]
    rfl
  · intro ha
    rw [htr, resolveTimeout, if_neg (by omega)]
    rfl

/-- Witness for C7 at a concrete input: `timeout_seconds = 9999` is clamped to
300 seconds. -/
theorem run_timeout_clamp_witness :
    runnerTimeouts (toolNoModels.Run (some reqBigTimeout)).2 = [300 * 1000000000] :=
  (run_timeout_clamp toolNoModels reqBigTimeout (by decide)
    (by rw [sanitizeSlug_eval]; decide) (by decide) (Or.inl rfl) "subagent-task" "task"
    (by rw [sanitizeSlug_eval]; rfl)).2.1 (by decide)

/-- C8: the model id handed to the runner is the request's model when
non-empty (and acceptable), else the parent's current model id. -/
theorem run_model_selection (s : SubagentTool) (req : subagentInput)
    (h1 : req.Slug ≠ "") (h2 : sanitizeSlug req.Slug ≠ "") (h3 : req.Prompt ≠ "")
    (hmok : req.Model = "" ∨ s.AvailableModels = [] ∨
      s.AvailableModels.any (fun m => m.ID == req.Model) = true)
    (cid actual : String)
    (hdb : s.DB (sanitizeSlug req.Slug) s.ParentConversationID s.WorkingDir =
      .ok (cid, actual)) :
    (req.Model ≠ "" → runnerModelIDs (s.Run (some req)).2 = [req.Model]) ∧
    (req.Model = "" → runnerModelIDs (s.Run (some req)).2 = [s.ModelID]) := by
  have hmc := resolveModel_isOk s req.Model hmok
  have hmm : runnerModelIDs (s.Run (some req)).2 =
      [if req.Model = "" then s.ModelID else req.Model] := by
    simp only [SubagentTool.Run, if_neg h1, if_neg h2, if_neg h3, hmc, hdb]
    cases hr : s.Runner cid req.Prompt (resolveWait req.Wait)
        (resolveTimeout req.TimeoutSeconds)
        (if req.Model = "" then s.ModelID else req.Model) with
    | error e => simp [runnerModelIDs, hr]
    | ok r => simp [runnerModelIDs, hr]
  constructor
  · intro h
    rw [hmm, if_neg h]
  · intro h
    rw [hmm, if_pos h]

/-- Witness for C8 at a concrete input: an explicit valid model override
reaches the runner. -/
theorem run_model_selection_witness :
    runnerModelIDs (toolTwoModels.Run (some reqModelB)).2 = ["model-b"] :=
  (run_model_selection toolTwoModels reqModelB (by decide)
    (by rw [sanitizeSlug_eval]; decide) (by decide) (Or.inr (Or.inr (by decide)))
    "subagent-task" "task" (by rw [sanitizeSlug_eval]; rfl)).1 (by decide)

theorem data_append (a b : String) : (a ++ b).data = a.data ++ b.data := rfl

theorem hasSub_of_decomp {X m pat : List Char} (x y : List Char)
    (hX : X = x ++ m ++ y) (h : hasSub m pat) : hasSub X pat := by
  subst hX
  exact hasSub_mono_middle x y h

theorem hasSub_self (pat : List Char) : hasSub pat pat := ⟨[], [], by simp⟩

theorem not_hasSub_of_containsList_false {hay pat : List Char}
    (h : containsList hay pat = false) : ¬ hasSub hay pat := by
  intro hs
  rw [(containsList_iff_hasSub hay pat).mpr hs] at h
  exact absurd h (by simp)

set_option maxRecDepth 4000 in
theorem descriptor_consistency (s : SubagentTool) :
    (strContains s.subagentInputSchema "\"model\"" ↔ s.AvailableModels ≠ []) ∧
    (strContains s.subagentDescription "Available models" ↔ s.AvailableModels ≠ []) ∧
    (s.AvailableModels ≠ [] →
      strContains s.subagentInputSchema
        ("\"enum\": [" ++ String.intercalate ", "
          (s.AvailableModels.map (fun m => goQuote m.ID)) ++ "]")) := by
  by_cases hne : s.AvailableModels = []
  · have hsch : s.subagentInputSchema = schemaPre ++ "" ++ schemaPost := by
      rw [SubagentTool.subagentInputSchema, hne]
      rfl
    have hdesc : s.subagentDescription = descriptionBase := by
      rw [SubagentTool.subagentDescription, hne]
      rfl
    refine ⟨?_, ?_, fun hq => absurd hne hq⟩
    · rw [hsch]
      constructor
      · intro hc
        exact absurd hc (not_hasSub_of_containsList_false (by decide))
      · intro hq
        exact absurd hne hq
    · rw [hdesc]
      constructor
      · intro hc
        exact absurd hc (not_hasSub_of_containsList_false (by decide))
      · intro hq
        exact absurd hne hq
  · have hlen : s.AvailableModels.length > 0 := List.length_pos.mpr hne
    have hsch : s.subagentInputSchema =
        schemaPre ++ (modelPropA ++ enumJoined s.AvailableModels ++ modelPropB) ++ schemaPost := by
      rw [SubagentTool.subagentInputSchema, modelProp, if_pos hlen]
    have hdesc : s.subagentDescription =
        descriptionBase ++ modelsHeader ++ String.join (s.AvailableModels.map modelLine) := by
      rw [SubagentTool.subagentDescription, if_pos hlen]
    have hsplitA : modelPropA = ",\n    " ++ "\"model\"" ++
        (": \x7b\n      \"type\": \"string\",\n      \"description\": \"LLM model for the subagent. Defaults to the parent conversation's model.\",\n      \"enum\": [") := rfl
    have hsplitA2 : modelPropA = (",\n    \"model\": \x7b\n      \"type\": \"string\",\n      \"description\": \"LLM model for the subagent. Defaults to the parent conversation's model.\",\n      ") ++ "\"enum\": [" := rfl
    have hsplitB : modelPropB = "]" ++ "\n    \x7d" := rfl
    have hsplitH : modelsHeader = "\n\n" ++ "Available models" ++
        " (use the \"model\" parameter to override the default):" := rfl
    refine ⟨⟨fun _ => hne, fun _ => ?_⟩, ⟨fun _ => hne, fun _ => ?_⟩, fun _ => ?_⟩
    · apply hasSub_of_decomp ((schemaPre ++ ",\n    ").data)
        (((": \x7b\n      \"type\": \"string\",\n      \"description\": \"LLM model for the subagent. Defaults to the parent conversation's model.\",\n      \"enum\": [") ++ enumJoined s.AvailableModels ++ modelPropB ++ schemaPost).data)
        ?_ (hasSub_self _)
      rw [hsch, hsplitA]
      simp [data_append, List.append_assoc]
    · apply hasSub_of_decomp ((descriptionBase ++ "\n\n").data)
        ((" (use the \"model\" parameter to override the default):" ++
          String.join (s.AvailableModels.map modelLine)).data)
        ?_ (hasSub_self _)
      rw [hdesc, hsplitH]
      simp [data_append, List.append_assoc]
    · apply hasSub_of_decomp
        ((schemaPre ++ ",\n    \"model\": \x7b\n      \"type\": \"string\",\n      \"description\": \"LLM model for the subagent. Defaults to the parent conversation's model.\",\n      ").data)
        (("\n    \x7d" ++ schemaPost).data)
        ?_ (hasSub_self _)
      rw [hsch, hsplitA2, hsplitB]
      simp [data_append, List.append_assoc, enumJoined]

/-- Witness for C9 at a concrete registry. -/
theorem descriptor_consistency_witness :
    toolTwoModels.AvailableModels ≠ [] ∧
    strContains toolTwoModels.subagentInputSchema
      ("\"enum\": [" ++ String.intercalate ", "
        (toolTwoModels.AvailableModels.map (fun m => goQuote m.ID)) ++ "]") :=
  ⟨by decide, (descriptor_consistency toolTwoModels).2.2 (by decide)⟩

end Shelley
